import Mathlib

/-!
Shallow embedding of the speech-synchronization engine of `src/avatar.py`
(`AvatarHandler.speak_with_tts`, `AvatarHandler.async_create_file`,
`AvatarHandler.stop`, `Live2DHandler._start_animation`).

Modelling conventions:
* The per-chunk synthesis threads are abstracted by the `results` map they
  populate (`results : Nat → Option SynthResult`); `results i = none` models a
  thread that recorded nothing (chunk text `None`, or `translator.translate` /
  `tts.save_audio` raising, which kills the thread before `results[id]` is
  written).
* The main thread of `speak_with_tts` is deterministic given that map; its
  sequence of observable actions is recorded as a trace of events
  (`Ev`).  Thread-completion events (`Ev.taskDone`) are placed in the trace
  according to a schedule `late : Nat → Bool`: a task that is "late" completes
  only when the main loop joins it, an "early" one before the loop starts.
  Both placements are legal executions of the Python program, since nothing
  orders the completion of thread `j` relative to the playback of chunks
  `< j`.
* Calls to `stop()` from other threads are modelled by a schedule
  `sched : Nat → Bool`: the k-th read of `self.stop_request` observes `true`
  iff the flag was already set or an external `stop()` arrived before that
  read (`sched k`).  The flag semantics of the source are kept: the per-chunk
  checkpoint (line 86-89) resets the flag to `false`; the per-frame checkpoint
  inside `_start_animation` (line 291) leaves it set.
* `lock : threading.Semaphore = threading.Semaphore(1)` is modelled by an
  explicit permit counter `lockCount`.  `acquire` with no permit blocks: the
  run returns `Outcome.blocked`.  `release` increments the counter
  unconditionally, exactly like `threading.Semaphore.release` (not a bounded
  semaphore).
* Python floats are modelled by `ℚ`; `amplitude/max_amplitude` with
  `max_amplitude == 0` raises `ZeroDivisionError`, and `max([])` raises
  `ValueError`; both happen inside the animation thread, which dies silently,
  so they are modelled by cutting the emitted frame list short.
-/

namespace Avatar

/-- The dictionary written by `async_create_file` into `results[id]`
(`avatar.py` lines 124-127). -/
structure SynthResult where
  expression : Option String
  filename : String
deriving DecidableEq

/-- One chunk produced by `extract_expressions`: its text and its expression
tag (`chunk["text"]`, `chunk["expression"]`). -/
structure Chunk where
  text : Option String
  expression : Option String
deriving DecidableEq

/-- `AvatarHandler.async_create_file` (lines 106-127): returns the entry it
stores into `results[id]`, or `none` when it records nothing — the chunk text
is `None` (early `return`, line 119-120) or `tts.save_audio` raises
(`saveOk audioText = false`), which kills the worker thread before line 124
runs.  `translate` is the optional translator (line 121-122); its output is
the text handed to `tts.save_audio` and does not appear in the stored
entry. -/
def async_create_file (chunk : Chunk) (translate : Option (String → String))
    (path : String) (saveOk : String → Bool) : Option SynthResult :=
  match chunk.text with
  | none => none
  | some t =>
      let audioText := match translate with
        | none => t
        | some f => f t
      if saveOk audioText then
        some { expression := chunk.expression, filename := path }
      else none

/-- Observable actions of one `speak_with_tts` execution. -/
inductive Ev where
  | taskDone (i : Nat)
  | joinTask (i : Nat)
  | setExpr (i : Nat) (e : String)
  | audio (i : Nat)
  | mouth (i : Nat) (v : ℚ)
deriving DecidableEq

/-- Mutable engine state shared across calls: `self.stop_request`
(line 31 / 147) and the internal permit counter of the class-level
`threading.Semaphore(1)` (line 25). -/
structure EngSt where
  stop_request : Bool
  lockCount : Nat
deriving DecidableEq

/-- How a `speak_with_tts` call ends: blocked forever on `lock.acquire()`,
escaped by an uncaught `KeyError` from `results[i]` (line 90), or returned
normally.  The `Nat` is the number of reads of `stop_request` performed. -/
inductive Outcome where
  | blocked
  | keyError (st : EngSt) (checks : Nat)
  | ok (st : EngSt) (checks : Nat)
deriving DecidableEq

/-- Python's `max` on a list (`max(amplitudes)`, line 289); the empty case
raises `ValueError` in the source and is never reached through
`start_animation`. -/
def pymax : List ℚ → ℚ
  | [] => 0
  | a :: l => l.foldl max a

/-- The loop body of `Live2DHandler._start_animation` (lines 290-295):
per frame, read `stop_request` (observed value `flag || sched k`); if set,
emit `set_mouth(0)` and return; otherwise emit `set_mouth (a / maxAmp)` —
when `maxAmp = 0` this division raises `ZeroDivisionError`, killing the
animation thread with nothing emitted for this frame or later ones.
Returns (emitted mouth values, flag afterwards, reads performed). -/
def animSteps (maxAmp : ℚ) (sched : Nat → Bool) :
    List ℚ → Bool → Nat → List ℚ × Bool × Nat
  | [], flag, k => ([], flag, k)
  | a :: rest, flag, k =>
      if flag || sched k then ([0], true, k + 1)
      else if maxAmp = 0 then ([], flag, k + 1)
      else
        let r := animSteps maxAmp sched rest flag (k + 1)
        (a / maxAmp :: r.1, r.2.1, r.2.2)

/-- `Live2DHandler._start_animation` (lines 288-295).  An empty amplitude
list makes `max(amplitudes)` raise `ValueError` inside the animation thread:
no frame is emitted and the flag is untouched. -/
def start_animation (amps : List ℚ) (sched : Nat → Bool) (flag : Bool)
    (k : Nat) : List ℚ × Bool × Nat :=
  match amps with
  | [] => ([], flag, k)
  | a :: rest => animSteps (pymax (a :: rest)) sched (a :: rest) flag k

/-- The playback loop of `speak_with_tts` (lines 84-96), iterating over the
worker threads in index order.  Arguments: `r` = iterations left, `i` =
current index, `flag` = current `stop_request`, `k` = reads of the flag so
far, `lc` = semaphore permits (the permit held by this call is *not*
counted).  Each iteration: join thread `i` (a late task completes here);
read `stop_request` — if set, `release()` (line 87), reset the flag
(line 88), `break`, and then the `release()` after the loop (line 96) runs
as well, hence `lc + 2`; otherwise look up `results[i]` — a missing entry
raises `KeyError` out of the whole call with the held permit lost; otherwise
optionally `set_expression`, then play the chunk: `tts.playsound` and
`_start_animation` run concurrently and are both joined (lines 281-286). -/
def playLoop (results : Nat → Option SynthResult) (amps : Nat → List ℚ)
    (sched : Nat → Bool) (late : Nat → Bool) :
    Nat → Nat → Bool → Nat → Nat → Outcome × List Ev
  | 0, _, flag, k, lc => (Outcome.ok ⟨flag, lc + 1⟩ k, [])
  | r + 1, i, flag, k, lc =>
      let joinEvs := (if late i then [Ev.taskDone i] else []) ++ [Ev.joinTask i]
      if flag || sched k then
        (Outcome.ok ⟨false, lc + 2⟩ (k + 1), joinEvs)
      else
        match results i with
        | none => (Outcome.keyError ⟨false, lc⟩ (k + 1), joinEvs)
        | some res =>
            let exprEvs := match res.expression with
              | none => ([] : List Ev)
              | some e => [Ev.setExpr i e]
            let anim := start_animation (amps i) sched false (k + 1)
            let playEvs := Ev.audio i :: anim.1.map (Ev.mouth i)
            let rest := playLoop results amps sched late r (i + 1) anim.2.1 anim.2.2 lc
            (rest.1, joinEvs ++ exprEvs ++ playEvs ++ rest.2)

/-- Completion events of the synthesis tasks that finish before the playback
loop runs (the "early" ones); the threads are started before
`lock.acquire()` (lines 76-80 vs 83), so these occur even if the call then
blocks. -/
def preEvents (n : Nat) (late : Nat → Bool) : List Ev :=
  (List.range n).filterMap fun j =>
    if late j then none else some (Ev.taskDone j)

/-- `AvatarHandler.speak_with_tts` (lines 63-96) for an input that segments
into `n` chunks: start one worker per chunk, `lock.acquire()` (blocking
forever when no permit is available), then run the playback loop. -/
def speak_with_tts (n : Nat) (results : Nat → Option SynthResult)
    (amps : Nat → List ℚ) (sched : Nat → Bool) (late : Nat → Bool)
    (st : EngSt) : Outcome × List Ev :=
  if st.lockCount = 0 then (Outcome.blocked, preEvents n late)
  else
    let r := playLoop results amps sched late n 0 st.stop_request 0
      (st.lockCount - 1)
    (r.1, preEvents n late ++ r.2)

/-- `AvatarHandler.stop` (lines 145-147): set `self.stop_request = True`. -/
def stop (st : EngSt) : EngSt := { st with stop_request := true }

/-- Chunk index of a playback event (`set_expression`, `playsound`,
`set_mouth`); `none` for thread bookkeeping events. -/
def evChunk : Ev → Option Nat
  | Ev.setExpr i _ => some i
  | Ev.audio i => some i
  | Ev.mouth i _ => some i
  | _ => none

/-- Chunk indices of all playback actions, in trace order. -/
def playIdxs (tr : List Ev) : List Nat := tr.filterMap evChunk

/-- Chunk indices of the audio-playback events, in trace order. -/
def audioIdxs (tr : List Ev) : List Nat :=
  tr.filterMap fun e => match e with
    | Ev.audio i => some i
    | _ => none

/-- Whether an event is the completion of a synthesis task. -/
def isDone : Ev → Bool
  | Ev.taskDone _ => true
  | _ => false

/-- A trace has a full synthesis barrier iff no synthesis task completes
after the first playback action. -/
def fullBarrier (tr : List Ev) : Bool :=
  (tr.dropWhile fun e => (evChunk e).isNone).all fun e => !isDone e

/-- All mouth-openness values sent to the avatar, in trace order. -/
def mouthVals (tr : List Ev) : List ℚ :=
  tr.filterMap fun e => match e with
    | Ev.mouth _ v => some v
    | _ => none

/-- The last mouth-openness value of a trace, if any. -/
def lastMouth (tr : List Ev) : Option ℚ := (mouthVals tr).getLast?

/-- Final engine state of an outcome, when the call returned at all. -/
def outSt : Outcome → Option EngSt
  | Outcome.blocked => none
  | Outcome.keyError st _ => some st
  | Outcome.ok st _ => some st

end Avatar

namespace Avatar

/-! ### Trace bookkeeping lemmas -/

theorem playIdxs_append (l₁ l₂ : List Ev) :
    playIdxs (l₁ ++ l₂) = playIdxs l₁ ++ playIdxs l₂ := by
  simp [playIdxs]

theorem audioIdxs_append (l₁ l₂ : List Ev) :
    audioIdxs (l₁ ++ l₂) = audioIdxs l₁ ++ audioIdxs l₂ := by
  simp [audioIdxs]

theorem playIdxs_preEvents (n : Nat) (late : Nat → Bool) :
    playIdxs (preEvents n late) = [] := by
  unfold preEvents
  induction List.range n with
  | nil => rfl
  | cons a l ih =>
      by_cases h : late a <;>
        simpa [List.filterMap_cons, h, playIdxs, evChunk] using ih

theorem audioIdxs_preEvents (n : Nat) (late : Nat → Bool) :
    audioIdxs (preEvents n late) = [] := by
  unfold preEvents
  induction List.range n with
  | nil => rfl
  | cons a l ih =>
      by_cases h : late a <;>
        simpa [List.filterMap_cons, h, audioIdxs] using ih

end Avatar

namespace Avatar

theorem playLoop_playIdxs_ge (results : Nat → Option SynthResult)
    (amps : Nat → List ℚ) (sched late : Nat → Bool) :
    ∀ (r i : Nat) (flag : Bool) (k lc x : Nat),
      x ∈ playIdxs (playLoop results amps sched late r i flag k lc).2 → i ≤ x := by
  intro r
  induction r with
  | zero => intro i flag k lc x hx; simp [playLoop, playIdxs] at hx
  | succ r ih =>
      intro i flag k lc x hx
      simp only [playLoop] at hx
      by_cases hstop : (flag || sched k) = true
      · rw [if_pos hstop] at hx
        by_cases hl : late i = true <;>
          simp [hl, playIdxs, evChunk] at hx
      · rw [if_neg hstop] at hx
        rcases hres : results i with _ | res
        · rw [hres] at hx
          by_cases hl : late i = true <;>
            simp [hl, playIdxs, evChunk] at hx
        · rw [hres] at hx
          rw [playIdxs_append, playIdxs_append, playIdxs_append] at hx
          simp only [List.mem_append] at hx
          rcases hx with ((hx | hx) | hx) | hx
          · by_cases hl : late i = true <;> simp [hl, playIdxs, evChunk] at hx
          · rcases hexp : res.expression with _ | e <;> rw [hexp] at hx <;>
              simp [playIdxs, evChunk] at hx
            omega
          · simp only [playIdxs, List.filterMap_cons, evChunk] at hx
            simp only [List.mem_cons] at hx
            rcases hx with rfl | hx
            · exact le_refl x
            · rcases List.mem_filterMap.mp hx with ⟨e, he, hev⟩
              rcases List.mem_map.mp he with ⟨v, _, rfl⟩
              simp [evChunk] at hev
              omega
          · exact Nat.le_of_succ_le (ih (i + 1) _ _ _ x hx)

end Avatar

namespace Avatar

theorem audioIdxs_subset_playIdxs (tr : List Ev) (x : Nat) :
    x ∈ audioIdxs tr → x ∈ playIdxs tr := by
  intro hx
  rcases List.mem_filterMap.mp hx with ⟨e, he, hev⟩
  cases e with
  | audio i =>
      refine List.mem_filterMap.mpr ⟨Ev.audio i, he, ?_⟩
      simpa [evChunk] using hev
  | taskDone i => exact absurd hev (by simp)
  | joinTask i => exact absurd hev (by simp)
  | setExpr i a => exact absurd hev (by simp)
  | mouth i v => exact absurd hev (by simp)

theorem playLoop_sorted (results : Nat → Option SynthResult)
    (amps : Nat → List ℚ) (sched late : Nat → Bool) :
    ∀ (r i : Nat) (flag : Bool) (k lc : Nat),
      List.Sorted (· ≤ ·) (playIdxs (playLoop results amps sched late r i flag k lc).2) ∧
      List.Sorted (· < ·) (audioIdxs (playLoop results amps sched late r i flag k lc).2) := by
  intro r
  induction r with
  | zero => intro i flag k lc; simp [playLoop, playIdxs, audioIdxs, List.Sorted]
  | succ r ih =>
      intro i flag k lc
      simp only [playLoop]
      by_cases hstop : (flag || sched k) = true
      · rw [if_pos hstop]
        by_cases hl : late i = true <;>
          simp [hl, playIdxs, audioIdxs, evChunk, List.Sorted]
      · rw [if_neg hstop]
        rcases hres : results i with _ | res
        · by_cases hl : late i = true <;>
            simp [hl, playIdxs, audioIdxs, evChunk, List.Sorted]
        · have hblockp : ∀ x ∈ playIdxs
              (((if late i then [Ev.taskDone i] else []) ++ [Ev.joinTask i]) ++
                (match res.expression with
                  | none => ([] : List Ev)
                  | some e => [Ev.setExpr i e]) ++
                (Ev.audio i ::
                  (start_animation (amps i) sched false (k + 1)).1.map (Ev.mouth i))),
              x = i := by
            intro x hx
            rw [playIdxs_append, playIdxs_append] at hx
            simp only [List.mem_append] at hx
            rcases hx with (hx | hx) | hx
            · by_cases hl : late i = true <;> simp [hl, playIdxs, evChunk] at hx
            · rcases hexp : res.expression with _ | e <;> rw [hexp] at hx <;>
                simp [playIdxs, evChunk] at hx
              exact hx
            · simp only [playIdxs, List.filterMap_cons, evChunk] at hx
              simp only [List.mem_cons] at hx
              rcases hx with rfl | hx
              · rfl
              · rcases List.mem_filterMap.mp hx with ⟨e, he, hev⟩
                rcases List.mem_map.mp he with ⟨v, _, rfl⟩
                simpa [evChunk] using hev.symm
          have hblocka : audioIdxs
              (((if late i then [Ev.taskDone i] else []) ++ [Ev.joinTask i]) ++
                (match res.expression with
                  | none => ([] : List Ev)
                  | some e => [Ev.setExpr i e]) ++
                (Ev.audio i ::
                  (start_animation (amps i) sched false (k + 1)).1.map (Ev.mouth i))) =
              [i] := by
            rw [audioIdxs_append, audioIdxs_append]
            rcases hexp : res.expression with _ | e <;>
              by_cases hl : late i = true <;>
                simp [hl, audioIdxs, List.filterMap_map, Function.comp]
          constructor
          · rw [playIdxs_append]
            refine List.pairwise_append.mpr ⟨?_, (ih (i + 1) _ _ _).1, ?_⟩
            · exact List.pairwise_of_forall_mem_list fun a ha b hb => by
                rw [hblockp a ha, hblockp b hb]
            · intro a ha b hb
              rw [hblockp a ha]
              exact Nat.le_of_succ_le
                (playLoop_playIdxs_ge results amps sched late r (i + 1) _ _ _ b hb)
          · rw [audioIdxs_append, hblocka]
            refine List.pairwise_append.mpr ⟨List.pairwise_singleton _ _,
              (ih (i + 1) _ _ _).2, ?_⟩
            intro a ha b hb
            simp only [List.mem_singleton] at ha
            rw [ha]
            exact Nat.lt_of_succ_le
              (playLoop_playIdxs_ge results amps sched late r (i + 1) _ _ _ b
                (audioIdxs_subset_playIdxs _ _ hb))

/-- Claim C1: for every input (any number of chunks, any synthesis results,
any completion order of the synthesis threads, any pattern of external
`stop()` calls), the playback loop of `speak_with_tts` performs its playback
actions in chunk order: the chunk indices of all expression switches, audio
plays and mouth frames are weakly increasing along the trace (so everything
of chunk `i` precedes everything of chunk `i + 1`), and the audio-play events
are in strictly increasing chunk order. -/
theorem C1_playback_in_order (n : Nat) (results : Nat → Option SynthResult)
    (amps : Nat → List ℚ) (sched late : Nat → Bool) (st : EngSt) :
    List.Sorted (· ≤ ·)
      (playIdxs (speak_with_tts n results amps sched late st).2) ∧
    List.Sorted (· < ·)
      (audioIdxs (speak_with_tts n results amps sched late st).2) := by
  unfold speak_with_tts
  by_cases h : st.lockCount = 0
  · simp [h, playIdxs_preEvents, audioIdxs_preEvents, List.Sorted]
  · rw [if_neg h]
    constructor
    · simpa [playIdxs_append, playIdxs_preEvents] using
        (playLoop_sorted results amps sched late n 0 st.stop_request 0
          (st.lockCount - 1)).1
    · simpa [audioIdxs_append, audioIdxs_preEvents] using
        (playLoop_sorted results amps sched late n 0 st.stop_request 0
          (st.lockCount - 1)).2

end Avatar

namespace Avatar

theorem audio_not_mem_preEvents (n : Nat) (late : Nat → Bool) (i : Nat) :
    Ev.audio i ∉ preEvents n late := by
  unfold preEvents
  intro h
  rcases List.mem_filterMap.mp h with ⟨j, _, hj⟩
  by_cases hl : late j = true <;> simp [hl] at hj

theorem playLoop_audio_lt (results : Nat → Option SynthResult)
    (amps : Nat → List ℚ) (sched late : Nat → Bool) :
    ∀ (r i : Nat) (flag : Bool) (k lc x : Nat),
      Ev.audio x ∈ (playLoop results amps sched late r i flag k lc).2 →
      x < i + r := by
  intro r
  induction r with
  | zero => intro i flag k lc x hx; simp [playLoop] at hx
  | succ r ih =>
      intro i flag k lc x hx
      simp only [playLoop] at hx
      by_cases hstop : (flag || sched k) = true
      · rw [if_pos hstop] at hx
        by_cases hl : late i = true <;> simp [hl] at hx
      · rw [if_neg hstop] at hx
        rcases hres : results i with _ | res
        · rw [hres] at hx
          by_cases hl : late i = true <;> simp [hl] at hx
        · rw [hres] at hx
          simp only [List.mem_append] at hx
          rcases hx with ((hx | hx) | hx) | hx
          · by_cases hl : late i = true <;> simp [hl] at hx
          · rcases hexp : res.expression with _ | e <;> rw [hexp] at hx <;>
              simp at hx
          · simp only [List.mem_cons] at hx
            rcases hx with hx | hx
            · cases hx; omega
            · rcases List.mem_map.mp hx with ⟨v, _, hv⟩
              cases hv
          · have := ih (i + 1) _ _ _ x hx
            omega

theorem playLoop_done_before_audio (results : Nat → Option SynthResult)
    (amps : Nat → List ℚ) (sched late : Nat → Bool) :
    ∀ (r i0 : Nat) (flag : Bool) (k lc i j : Nat), i0 ≤ j → j ≤ i →
      late j = true →
      Ev.audio i ∈ (playLoop results amps sched late r i0 flag k lc).2 →
      [Ev.taskDone j, Ev.audio i].Sublist
        (playLoop results amps sched late r i0 flag k lc).2 := by
  intro r
  induction r with
  | zero => intro i0 flag k lc i j _ _ _ hmem; simp [playLoop] at hmem
  | succ r ih =>
      intro i0 flag k lc i j h0j hji hl hmem
      by_cases hstop : (flag || sched k) = true
      · exfalso
        revert hmem
        simp only [playLoop]
        rw [if_pos hstop]
        by_cases hli : late i0 = true <;> simp [hli]
      · rcases hres : results i0 with _ | res
        · exfalso
          revert hmem
          simp only [playLoop]
          rw [if_neg hstop, hres]
          by_cases hli : late i0 = true <;> simp [hli]
        · have hT : (playLoop results amps sched late (r + 1) i0 flag k lc).2 =
              ((if late i0 = true then [Ev.taskDone i0] else []) ++
                [Ev.joinTask i0]) ++
              ((match res.expression with
                | none => ([] : List Ev)
                | some e => [Ev.setExpr i0 e]) ++
              ((Ev.audio i0 ::
                (start_animation (amps i0) sched false (k + 1)).1.map
                  (Ev.mouth i0)) ++
               (playLoop results amps sched late r (i0 + 1)
                  (start_animation (amps i0) sched false (k + 1)).2.1
                  (start_animation (amps i0) sched false (k + 1)).2.2 lc).2)) := by
            simp only [playLoop]
            rw [if_neg hstop, hres]
            simp [List.append_assoc]
          rw [hT] at hmem ⊢
          rcases Nat.eq_or_lt_of_le h0j with heq | hlt
          · subst heq
            rw [if_pos hl] at hmem ⊢
            have haudio : Ev.audio i ∈
                ((match res.expression with
                  | none => ([] : List Ev)
                  | some e => [Ev.setExpr i0 e]) ++
                ((Ev.audio i0 ::
                  (start_animation (amps i0) sched false (k + 1)).1.map
                    (Ev.mouth i0)) ++
                 (playLoop results amps sched late r (i0 + 1)
                    (start_animation (amps i0) sched false (k + 1)).2.1
                    (start_animation (amps i0) sched false (k + 1)).2.2 lc).2)) := by
              rcases List.mem_append.mp hmem with h | h
              · exfalso; revert h; simp
              · exact h
            have h1 : List.Sublist [Ev.taskDone i0]
                ([Ev.taskDone i0] ++ [Ev.joinTask i0]) :=
              List.sublist_append_left _ _
            have h2 : List.Sublist [Ev.audio i] _ :=
              List.singleton_sublist.mpr haudio
            exact List.Sublist.append h1 h2
          · have hmem' : Ev.audio i ∈
                (playLoop results amps sched late r (i0 + 1)
                  (start_animation (amps i0) sched false (k + 1)).2.1
                  (start_animation (amps i0) sched false (k + 1)).2.2 lc).2 := by
              rcases List.mem_append.mp hmem with h | h
              · exfalso
                revert h
                by_cases hli : late i0 = true <;> simp [hli]
              · rcases List.mem_append.mp h with h | h
                · exfalso
                  revert h
                  rcases res.expression with _ | e <;> simp
                · rcases List.mem_append.mp h with h | h
                  · exfalso
                    rcases List.mem_cons.mp h with h | h
                    · cases h; omega
                    · rcases List.mem_map.mp h with ⟨v, _, hv⟩
                      cases hv
                  · exact h
            have hrec := ih (i0 + 1) _ _ lc i j hlt hji hl hmem'
            refine hrec.trans ?_
            exact ((List.sublist_append_right _ _).trans
              (List.sublist_append_right _ _)).trans
              (List.sublist_append_right _ _)

end Avatar

namespace Avatar

/-- Claim C2, as stated, is false: there is an execution of `speak_with_tts`
with two chunks in which chunk 0's audio is played while synthesis task 1 is
still running (task 1 completes only at its own `join`, after chunk 0's
playback) — the loop joins the workers one at a time, interleaved with
playback, so there is no full barrier between the synthesis fan-out and the
first playback step. -/
theorem C2_counterexample :
    fullBarrier (speak_with_tts 2 (fun _ => some ⟨none, "f"⟩) (fun _ => [])
      (fun _ => false) (fun i => i == 1) ⟨false, 1⟩).2 = false := by decide

/-- Claim C2, amended: the barrier is per-prefix, not full.  Before chunk
`i`'s audio is played, every synthesis task `j ≤ i` has completed (the loop
joins thread `j` before playing chunk `j`, for every `j ≤ i`); tasks with
index greater than `i` may still be running.  Formally: whenever chunk `i`'s
audio event occurs in the trace, the completion event of every task `j ≤ i`
occurs before it. -/
theorem C2_prefix_barrier (n : Nat) (results : Nat → Option SynthResult)
    (amps : Nat → List ℚ) (sched late : Nat → Bool) (st : EngSt) (i j : Nat)
    (hji : j ≤ i)
    (hmem : Ev.audio i ∈ (speak_with_tts n results amps sched late st).2) :
    [Ev.taskDone j, Ev.audio i].Sublist
      (speak_with_tts n results amps sched late st).2 := by
  unfold speak_with_tts at hmem ⊢
  by_cases h : st.lockCount = 0
  · rw [if_pos h] at hmem
    exact absurd hmem (audio_not_mem_preEvents n late i)
  · rw [if_neg h] at hmem ⊢
    have hmem' : Ev.audio i ∈
        (playLoop results amps sched late n 0 st.stop_request 0
          (st.lockCount - 1)).2 := by
      rcases List.mem_append.mp hmem with hpre | hloop
      · exact absurd hpre (audio_not_mem_preEvents n late i)
      · exact hloop
    by_cases hl : late j = true
    · exact (playLoop_done_before_audio results amps sched late n 0
        st.stop_request 0 (st.lockCount - 1) i j (Nat.zero_le j) hji hl
        hmem').trans (List.sublist_append_right _ _)
    · have hin : i < n := by
        have := playLoop_audio_lt results amps sched late n 0 st.stop_request 0
          (st.lockCount - 1) i hmem'
        omega
      have hdone : Ev.taskDone j ∈ preEvents n late := by
        unfold preEvents
        refine List.mem_filterMap.mpr ⟨j, List.mem_range.mpr (by omega), ?_⟩
        simp [hl]
      have h1 : List.Sublist [Ev.taskDone j] (preEvents n late) :=
        List.singleton_sublist.mpr hdone
      have h2 : List.Sublist [Ev.audio i]
          (playLoop results amps sched late n 0 st.stop_request 0
            (st.lockCount - 1)).2 :=
        List.singleton_sublist.mpr hmem'
      exact List.Sublist.append h1 h2

/-- Witness for `C2_prefix_barrier` at a concrete input: one chunk, a
successful synthesis result, no stop request — the task-completion event of
task 0 precedes chunk 0's audio event. -/
theorem C2_prefix_barrier_witness :
    [Ev.taskDone 0, Ev.audio 0].Sublist
      (speak_with_tts 1 (fun _ => some ⟨none, "f"⟩) (fun _ => [])
        (fun _ => false) (fun _ => false) ⟨false, 1⟩).2 :=
  C2_prefix_barrier 1 (fun _ => some ⟨none, "f"⟩) (fun _ => [])
    (fun _ => false) (fun _ => false) ⟨false, 1⟩ 0 0 (Nat.le_refl 0)
    (by decide)

end Avatar

namespace Avatar

/-- Claim C3 describes the spec's intent; the code does the opposite.  At the
failing input — three chunks where chunk 1's synthesis records nothing
(`async_create_file` returns early because the chunk text is `None`; a
raising `tts.save_audio` behaves identically) — the playback loop plays
chunk 0, then raises an uncaught `KeyError` at `results[1]`: chunk 1 is not
"skipped", chunk 2 is never played, and the call escapes with the semaphore
permit lost (`lockCount = 0`). -/
theorem C3_abort_on_failure :
    (speak_with_tts 3
      (fun i => async_create_file ⟨if i == 1 then none else some "hi",
        some "happy"⟩ none "f" (fun _ => true))
      (fun _ => []) (fun _ => false) (fun _ => false) ⟨false, 1⟩).1 =
      Outcome.keyError ⟨false, 0⟩ 2 ∧
    Ev.audio 0 ∈ (speak_with_tts 3
      (fun i => async_create_file ⟨if i == 1 then none else some "hi",
        some "happy"⟩ none "f" (fun _ => true))
      (fun _ => []) (fun _ => false) (fun _ => false) ⟨false, 1⟩).2 ∧
    Ev.audio 2 ∉ (speak_with_tts 3
      (fun i => async_create_file ⟨if i == 1 then none else some "hi",
        some "happy"⟩ none "f" (fun _ => true))
      (fun _ => []) (fun _ => false) (fun _ => false) ⟨false, 1⟩).2 := by
  decide

theorem playLoop_keyError_lock (results : Nat → Option SynthResult)
    (amps : Nat → List ℚ) (sched late : Nat → Bool) :
    ∀ (r i : Nat) (flag : Bool) (k lc : Nat) (st : EngSt) (c : Nat),
      (playLoop results amps sched late r i flag k lc).1 =
        Outcome.keyError st c → st.lockCount = lc := by
  intro r
  induction r with
  | zero => intro i flag k lc st c h; simp [playLoop] at h
  | succ r ih =>
      intro i flag k lc st c h
      simp only [playLoop] at h
      by_cases hstop : (flag || sched k) = true
      · rw [if_pos hstop] at h
        simp at h
      · rw [if_neg hstop] at h
        rcases hres : results i with _ | res
        · rw [hres] at h
          simp only [Outcome.keyError.injEq] at h
          rw [← h.1]
        · rw [hres] at h
          exact ih (i + 1) _ _ _ st c h

/-- Claim C9: whenever a `speak_with_tts` run (entered with the semaphore's
single permit available) escapes with the uncaught `KeyError` raised by the
playback loop's `results[i]` lookup, the semaphore permit is still held and
never released — the escaped state has `lockCount = 0` — and every
subsequent `speak_with_tts` call, with any arguments, blocks forever on
`lock.acquire()`. -/
theorem C9_lock_leak (n : Nat) (results : Nat → Option SynthResult)
    (amps : Nat → List ℚ) (sched late : Nat → Bool) (f : Bool) (st : EngSt)
    (c : Nat)
    (h : (speak_with_tts n results amps sched late ⟨f, 1⟩).1 =
      Outcome.keyError st c) :
    st.lockCount = 0 ∧
    ∀ (n2 : Nat) (r2 : Nat → Option SynthResult) (a2 : Nat → List ℚ)
      (s2 l2 : Nat → Bool),
      (speak_with_tts n2 r2 a2 s2 l2 st).1 = Outcome.blocked := by
  unfold speak_with_tts at h
  simp only [show (⟨f, 1⟩ : EngSt).lockCount = 1 from rfl] at h
  rw [if_neg (by omega)] at h
  have hlock : st.lockCount = 0 :=
    playLoop_keyError_lock results amps sched late n 0 f 0 0 st c h
  refine ⟨hlock, ?_⟩
  intro n2 r2 a2 s2 l2
  unfold speak_with_tts
  rw [if_pos hlock]

/-- Witness for `C9_lock_leak`: one chunk whose synthesis records nothing;
the run raises `KeyError` in state `⟨false, 0⟩`, and a subsequent call
blocks. -/
theorem C9_lock_leak_witness :
    (speak_with_tts 1 (fun _ => none) (fun _ => []) (fun _ => false)
      (fun _ => false) ⟨false, 1⟩).1 = Outcome.keyError ⟨false, 0⟩ 1 ∧
    (⟨false, 0⟩ : EngSt).lockCount = 0 ∧
    (speak_with_tts 5 (fun _ => some ⟨none, "g"⟩) (fun _ => [])
      (fun _ => false) (fun _ => false) ⟨false, 0⟩).1 = Outcome.blocked :=
  ⟨by decide,
   (C9_lock_leak 1 (fun _ => none) (fun _ => []) (fun _ => false)
      (fun _ => false) false ⟨false, 0⟩ 1 (by decide)).1,
   (C9_lock_leak 1 (fun _ => none) (fun _ => []) (fun _ => false)
      (fun _ => false) false ⟨false, 0⟩ 1 (by decide)).2 5
      (fun _ => some ⟨none, "g"⟩) (fun _ => []) (fun _ => false)
      (fun _ => false)⟩

end Avatar

namespace Avatar

/-- Claim C8 is the spec's intent; the code breaks it on the cancellation
path.  A `speak_with_tts` call that observes `stop_request` at its per-chunk
checkpoint executes `self.lock.release()` at the `break` (line 87) *and* the
`self.lock.release()` after the loop (line 96): starting from the
semaphore's initial single permit, the final state has `lockCount = 2`
(first conjunct).  Consequently a later `speak_with_tts` call proceeds
(second conjunct), and while it is inside its playback phase — holding one
of the two permits, leaving `lockCount = 1` — yet another call also gets
past `acquire` (third conjunct): two playback loops can drive the avatar
concurrently. -/
theorem C8_double_release :
    (speak_with_tts 1 (fun _ => some ⟨none, "f"⟩) (fun _ => [])
      (fun k => k == 0) (fun _ => false) ⟨false, 1⟩).1 =
      Outcome.ok ⟨false, 2⟩ 1 ∧
    (speak_with_tts 1 (fun _ => some ⟨none, "f"⟩) (fun _ => [])
      (fun _ => false) (fun _ => false) ⟨false, 2⟩).1 ≠ Outcome.blocked ∧
    (speak_with_tts 1 (fun _ => some ⟨none, "f"⟩) (fun _ => [])
      (fun _ => false) (fun _ => false) ⟨false, 1⟩).1 ≠ Outcome.blocked := by
  decide

/-- Claim C6, as stated, is false: calling `stop()` with no speak in flight
(here: twice in succession, from the idle state `⟨false, 1⟩`) leaves
`stop_request = true` persistently, and the next `speak_with_tts` call — one
chunk, successful synthesis, no further stop calls — observes the stale flag
at its first checkpoint and plays none of its chunks: its audio-event list
is empty, not `[0]` as "plays all of its chunks normally" requires. -/
theorem C6_counterexample :
    audioIdxs (speak_with_tts 1 (fun _ => some ⟨none, "f"⟩) (fun _ => [])
      (fun _ => false) (fun _ => false) (stop (stop ⟨false, 1⟩))).2 = [] ∧
    audioIdxs (speak_with_tts 1 (fun _ => some ⟨none, "f"⟩) (fun _ => [])
      (fun _ => false) (fun _ => false) (stop (stop ⟨false, 1⟩))).2 ≠ [0] := by
  decide

/-- Claim C6, amended: `stop()` raises no error and is idempotent as a state
change — a second call in succession changes nothing (first conjunct).  But
it is not a no-op when no session is active: the flag it sets persists, and
the next `speak_with_tts` call (any chunk count, any results, any schedules)
observes it at its first per-chunk checkpoint and plays none of its chunks
(second conjunct: no audio event occurs). -/
theorem C6_amended :
    (∀ s : EngSt, stop (stop s) = stop s) ∧
    ∀ (n : Nat) (results : Nat → Option SynthResult) (amps : Nat → List ℚ)
      (sched late : Nat → Bool) (lc : Nat),
      audioIdxs (speak_with_tts n results amps sched late ⟨true, lc + 1⟩).2 =
        [] := by
  constructor
  · intro s; rfl
  · intro n results amps sched late lc
    unfold speak_with_tts
    rw [if_neg (by simp)]
    rw [audioIdxs_append, audioIdxs_preEvents]
    cases n with
    | zero => simp [playLoop, audioIdxs]
    | succ r =>
        simp only [playLoop]
        rw [if_pos (by simp)]
        by_cases hl : late 0 = true <;> simp [hl, audioIdxs]

/-- Claim C7, as stated, is false: `speak_with_tts` allocates no generation
id and does not supersede a running session.  Concretely, with a prior
session holding the semaphore (`lockCount = 0`) and `stop_request = false`,
a new `speak_with_tts` call simply blocks on `lock.acquire()` — its entire
observable behaviour is the completion of its already-started synthesis
threads — instead of setting the prior session's stop flag and proceeding. -/
theorem C7_counterexample :
    speak_with_tts 1 (fun _ => some ⟨none, "f"⟩) (fun _ => [])
      (fun _ => false) (fun _ => false) ⟨false, 0⟩ =
      (Outcome.blocked, [Ev.taskDone 0]) := by
  decide

/-- Claim C7, amended: there is no generation counter and no superseding.
(1) A `speak_with_tts` call that finds the semaphore held blocks on
`acquire`, whatever its arguments and whatever the flag's value.
(2) `speak_with_tts` itself never turns the stop flag on: in any run started
with `stop_request = false` and no external `stop()` call (all-false
schedule), the returned state still has `stop_request = false`.
(3) Only `stop()` sets the flag. -/
theorem C7_amended :
    (∀ (n : Nat) (results : Nat → Option SynthResult) (amps : Nat → List ℚ)
      (sched late : Nat → Bool) (f : Bool),
      (speak_with_tts n results amps sched late ⟨f, 0⟩).1 = Outcome.blocked) ∧
    (∀ (n : Nat) (results : Nat → Option SynthResult) (amps : Nat → List ℚ)
      (late : Nat → Bool) (lc : Nat) (st : EngSt),
      st ∈ outSt (speak_with_tts n results amps (fun _ => false) late
        ⟨false, lc + 1⟩).1 → st.stop_request = false) ∧
    (∀ s : EngSt, (stop s).stop_request = true) := by
  refine ⟨?_, ?_, fun s => rfl⟩
  · intro n results amps sched late f
    unfold speak_with_tts
    rw [if_pos rfl]
  · intro n results amps late lc st hst
    unfold speak_with_tts at hst
    rw [if_neg (by simp)] at hst
    revert hst
    have key : ∀ (r i : Nat) (k lc2 : Nat) (st2 : EngSt),
        st2 ∈ outSt (playLoop results amps (fun _ => false) late r i false k
          lc2).1 → st2.stop_request = false := by
      intro r
      induction r with
      | zero =>
          intro i k lc2 st2 h
          simp only [playLoop, outSt, Option.mem_def, Option.some.injEq] at h
          rw [← h]
      | succ r ih =>
          intro i k lc2 st2 h
          simp only [playLoop] at h
          rw [if_neg (by simp)] at h
          rcases hres : results i with _ | res
          · rw [hres] at h
            simp only [outSt, Option.mem_def, Option.some.injEq] at h
            rw [← h]
          · rw [hres] at h
            have hanim : (start_animation (amps i) (fun _ => false) false
                ((k : Nat) + 1)).2.1 = false := by
              rcases amps i with _ | ⟨a, rest⟩
              · rfl
              · simp only [start_animation]
                generalize pymax (a :: rest) = m
                generalize a :: rest = l
                clear hres h
                induction l generalizing k with
                | nil => rfl
                | cons b bs ihl =>
                    simp only [animSteps, Bool.false_or]
                    by_cases hm : m = 0 <;> simp [hm, ihl]
            rw [hanim] at h
            exact ih (i + 1) _ _ st2 h
    intro hst
    exact key n 0 0 lc st hst

/-- Witness for `C7_amended`'s second part: a zero-chunk run from the idle
state returns the state `⟨false, 1⟩`, whose stop flag is `false`. -/
theorem C7_amended_witness :
    (⟨false, 1⟩ : EngSt).stop_request = false :=
  C7_amended.2.1 0 (fun _ => none) (fun _ => []) (fun _ => false) 0
    ⟨false, 1⟩ (by decide)

end Avatar

namespace Avatar

/-- Claim C4, as stated, is false: the per-chunk cancellation checkpoint
(lines 86-89) does *not* force mouth openness to 0.  Concrete execution: two
chunks, chunk 0's amplitudes `[2, 1]`; an external `stop()` arrives after
chunk 0's animation finished and is observed at chunk 1's per-chunk
checkpoint (the 4th read of the flag, `sched 3 = true`), which breaks out of
the loop (the run ends on the cancellation path, first conjunct) — and the
last mouth-animation call of the whole execution is `set_mouth (1/2)`,
chunk 0's final amplitude ratio, not `set_mouth 0`. -/
theorem C4_counterexample :
    (speak_with_tts 2 (fun _ => some ⟨none, "f"⟩)
      (fun i => if i == 0 then [2, 1] else [5]) (fun k => k == 3)
      (fun _ => false) ⟨false, 1⟩).1 = Outcome.ok ⟨false, 2⟩ 4 ∧
    lastMouth (speak_with_tts 2 (fun _ => some ⟨none, "f"⟩)
      (fun i => if i == 0 then [2, 1] else [5]) (fun k => k == 3)
      (fun _ => false) ⟨false, 1⟩).2 = some (1 / 2) ∧
    (1 / 2 : ℚ) ≠ 0 := by
  refine ⟨?_, ?_, by norm_num⟩
  · norm_num [speak_with_tts, playLoop, preEvents, start_animation, animSteps,
      pymax]
  · norm_num [lastMouth, mouthVals, speak_with_tts, playLoop, preEvents,
      start_animation, animSteps, pymax]

theorem animSteps_stopped_last_zero (m : ℚ) (sched : Nat → Bool) :
    ∀ (l : List ℚ) (k : Nat),
      (animSteps m sched l false k).2.1 = true →
      (animSteps m sched l false k).1.getLast? = some 0 := by
  intro l
  induction l with
  | nil => intro k h; simp [animSteps] at h
  | cons a rest ih =>
      intro k h
      simp only [animSteps, Bool.false_or] at h ⊢
      by_cases hs : sched k = true
      · simp [hs]
      · rw [if_neg hs] at h ⊢
        by_cases hm : m = 0
        · rw [if_pos hm] at h
          simp at h
        · rw [if_neg hm] at h ⊢
          have := ih (k + 1) h
          rcases hrec : (animSteps m sched rest false (k + 1)).1 with _ | ⟨b, bs⟩
          · rw [hrec] at this
            simp at this
          · simp only [hrec] at this ⊢
            simpa using this

theorem playLoop_flag_no_mouth (results : Nat → Option SynthResult)
    (amps : Nat → List ℚ) (sched late : Nat → Bool) (r i k lc : Nat) :
    mouthVals (playLoop results amps sched late r i true k lc).2 = [] := by
  cases r with
  | zero => rfl
  | succ r =>
      simp only [playLoop, Bool.true_or, if_pos]
      by_cases hl : late i = true <;> simp [hl, mouthVals]

/-- Claim C4, amended: only the per-frame checkpoint inside the animation
loop forces the mouth shut.  (1) If a chunk's animation observes the stop
flag mid-track (it enters with the flag clear and leaves with it set), the
value it emitted last is `0`, per line 292.  (2) Once the flag is set, the
remainder of the playback loop emits no mouth value at all: the next
per-chunk checkpoint breaks out of `speak_with_tts` without any further
`set_mouth` call — so a stop observed *between* chunks leaves the mouth at
the previous chunk's final amplitude ratio. -/
theorem C4_amended :
    (∀ (amps : List ℚ) (sched : Nat → Bool) (k : Nat),
      (start_animation amps sched false k).2.1 = true →
      (start_animation amps sched false k).1.getLast? = some 0) ∧
    (∀ (results : Nat → Option SynthResult) (amps : Nat → List ℚ)
      (sched late : Nat → Bool) (r i k lc : Nat),
      mouthVals (playLoop results amps sched late r i true k lc).2 = []) := by
  constructor
  · intro amps sched k h
    rcases amps with _ | ⟨a, rest⟩
    · simp [start_animation] at h
    · exact animSteps_stopped_last_zero (pymax (a :: rest)) sched
        (a :: rest) k h
  · exact playLoop_flag_no_mouth

/-- Witness for `C4_amended`: the animation of track `[2, 1]` interrupted by
a stop at its second frame ends with `set_mouth 0`, and the playback loop
entered with the flag set emits no mouth value. -/
theorem C4_amended_witness :
    (start_animation [2, 1] (fun k => k == 1) false 0).1.getLast? = some 0 ∧
    mouthVals (playLoop (fun _ => some ⟨none, "f"⟩) (fun _ => [5])
      (fun _ => false) (fun _ => false) 3 0 true 0 0).2 = [] :=
  ⟨C4_amended.1 [2, 1] (fun k => k == 1) 0 (by decide),
   C4_amended.2 (fun _ => some ⟨none, "f"⟩) (fun _ => [5]) (fun _ => false)
     (fun _ => false) 3 0 0 0⟩

end Avatar

namespace Avatar

theorem foldl_max_init (l : List ℚ) : ∀ b : ℚ, b ≤ l.foldl max b := by
  induction l with
  | nil => intro b; simp
  | cons a l ih =>
      intro b
      simpa using le_trans (le_max_left b a) (ih (max b a))

theorem foldl_max_mem (l : List ℚ) :
    ∀ (b a : ℚ), a ∈ l → a ≤ l.foldl max b := by
  induction l with
  | nil => intro b a ha; simp at ha
  | cons c l ih =>
      intro b a ha
      rcases List.mem_cons.mp ha with rfl | ha
      · simpa using le_trans (le_max_right b a) (foldl_max_init l (max b a))
      · simpa using ih (max b c) a ha

theorem foldl_max_le (l : List ℚ) :
    ∀ (b c : ℚ), b ≤ c → (∀ a ∈ l, a ≤ c) → l.foldl max b ≤ c := by
  induction l with
  | nil => intro b c hb _; simpa using hb
  | cons a l ih =>
      intro b c hb h
      simp only [List.foldl_cons]
      exact ih (max b a) c (max_le hb (h a (List.mem_cons_self a l)))
        fun x hx => h x (List.mem_cons_of_mem a hx)

theorem foldl_max_mem_or (l : List ℚ) :
    ∀ b : ℚ, l.foldl max b = b ∨ l.foldl max b ∈ l := by
  induction l with
  | nil => intro b; left; rfl
  | cons a l ih =>
      intro b
      simp only [List.foldl_cons]
      rcases ih (max b a) with h | h
      · rcases le_total b a with hba | hab
        · right
          rw [h, max_eq_right hba]
          exact List.mem_cons_self a l
        · left
          rw [h, max_eq_left hab]
      · right
        exact List.mem_cons_of_mem a h

theorem le_pymax (l : List ℚ) (a : ℚ) (ha : a ∈ l) : a ≤ pymax l := by
  rcases l with _ | ⟨b, l⟩
  · simp at ha
  · rcases List.mem_cons.mp ha with rfl | ha
    · exact foldl_max_init l a
    · exact foldl_max_mem l b a ha

theorem pymax_le (l : List ℚ) (c : ℚ) (hne : l ≠ [])
    (h : ∀ a ∈ l, a ≤ c) : pymax l ≤ c := by
  rcases l with _ | ⟨b, l⟩
  · exact absurd rfl hne
  · exact foldl_max_le l b c (h b (List.mem_cons_self b l))
      fun x hx => h x (List.mem_cons_of_mem b hx)

theorem pymax_mem (l : List ℚ) (hne : l ≠ []) : pymax l ∈ l := by
  rcases l with _ | ⟨b, l⟩
  · exact absurd rfl hne
  · rcases foldl_max_mem_or l b with h | h
    · rw [pymax, h]
      exact List.mem_cons_self b l
    · exact List.mem_cons_of_mem b h

theorem animSteps_no_stop (m : ℚ) (hm : m ≠ 0) :
    ∀ (l : List ℚ) (k : Nat),
      animSteps m (fun _ => false) l false k =
        (l.map (fun a => a / m), false, k + l.length) := by
  intro l
  induction l with
  | nil => intro k; rfl
  | cons a rest ih =>
      intro k
      simp only [animSteps, Bool.false_or, if_neg hm, ih (k + 1),
        List.map_cons, List.length_cons]
      have harith : k + 1 + rest.length = k + (rest.length + 1) := by omega
      simp [harith]

/-- Claim C5, as stated, is false on silent tracks: the claim predicts that
a fully silent track (maximum 0) is emitted as all-zero samples, but for the
two-frame silent track `[0, 0]` the code computes `amplitude/max_amplitude`
with `max_amplitude = 0`, raising `ZeroDivisionError` on the first frame —
no sample is emitted at all (the animation thread dies before its first
`set_mouth`). -/
theorem C5_counterexample :
    (start_animation [0, 0] (fun _ => false) false 0).1 = [] ∧
    (start_animation [0, 0] (fun _ => false) false 0).1 ≠ [0, 0] := by
  decide

/-- Claim C5, amended.  (1) For a track containing a strictly positive
sample and no stop request, the animation emits exactly one value per
sample, namely `sample / max`, and the largest emitted value is `1` (the
track maximum maps to `1`).  (2) For a track whose maximum is `0` (fully
silent, or empty), nothing is emitted: the division by zero (or `max` of an
empty list) raises inside the animation thread before the first
`set_mouth`. -/
theorem C5_amended :
    (∀ (amps : List ℚ) (k : Nat), (∃ a ∈ amps, 0 < a) →
      (start_animation amps (fun _ => false) false k).1 =
        amps.map (fun a => a / pymax amps) ∧
      pymax (start_animation amps (fun _ => false) false k).1 = 1) ∧
    (∀ (amps : List ℚ) (k : Nat), pymax amps = 0 →
      (start_animation amps (fun _ => false) false k).1 = []) := by
  constructor
  · rintro amps k ⟨a0, ha0, hpos0⟩
    have hpos : 0 < pymax amps := lt_of_lt_of_le hpos0 (le_pymax amps a0 ha0)
    have hne : amps ≠ [] := by
      intro h; rw [h] at ha0; simp at ha0
    have hvals : (start_animation amps (fun _ => false) false k).1 =
        amps.map (fun a => a / pymax amps) := by
      rcases amps with _ | ⟨b, rest⟩
      · exact absurd rfl hne
      · simp only [start_animation,
          animSteps_no_stop (pymax (b :: rest)) (ne_of_gt hpos)]
    refine ⟨hvals, ?_⟩
    rw [hvals]
    have hmem1 : (1 : ℚ) ∈ amps.map (fun a => a / pymax amps) :=
      List.mem_map.mpr ⟨pymax amps, pymax_mem amps hne,
        div_self (ne_of_gt hpos)⟩
    have hle1 : ∀ v ∈ amps.map (fun a => a / pymax amps), v ≤ 1 := by
      intro v hv
      rcases List.mem_map.mp hv with ⟨a, ha, rfl⟩
      exact (div_le_one hpos).mpr (le_pymax amps a ha)
    have hne2 : amps.map (fun a => a / pymax amps) ≠ [] := by
      intro h; rw [h] at hmem1; simp at hmem1
    exact le_antisymm (pymax_le _ 1 hne2 hle1)
      (le_pymax _ 1 hmem1)
  · intro amps k h0
    rcases amps with _ | ⟨b, rest⟩
    · rfl
    · simp [start_animation, animSteps, h0]

/-- Witness for `C5_amended`: the one-frame track `[2]` is emitted as
`[2 / 2] = [1]` with maximum `1`, and the silent track `[0]` is emitted as
nothing. -/
theorem C5_amended_witness :
    ((start_animation [2] (fun _ => false) false 0).1 =
      [2].map (fun a => a / pymax [2]) ∧
     pymax (start_animation [2] (fun _ => false) false 0).1 = 1) ∧
    (start_animation [0] (fun _ => false) false 0).1 = [] :=
  ⟨C5_amended.1 [2] 0 ⟨2, by norm_num, by norm_num⟩,
   C5_amended.2 [0] 0 (by norm_num [pymax])⟩

/-- Claim C10: for an amplitude list of non-negative samples with a strictly
positive maximum, every value the animation loop passes to the
mouth-openness sink lies in `[0, 1]`, and is either exactly `0` (emitted on
cancellation) or `amplitude / maximum` for some amplitude of the track. -/
theorem C10_mouth_range (amps : List ℚ) (sched : Nat → Bool) (flag : Bool)
    (k : Nat) (hnn : ∀ a ∈ amps, 0 ≤ a) (hpos : 0 < pymax amps) :
    ∀ v ∈ (start_animation amps sched flag k).1,
      0 ≤ v ∧ v ≤ 1 ∧ (v = 0 ∨ ∃ a ∈ amps, v = a / pymax amps) := by
  rcases hamps : amps with _ | ⟨b, rest⟩
  · intro v hv; simp [start_animation] at hv
  · rw [← hamps]
    have key : ∀ (l : List ℚ) (fl : Bool) (k2 : Nat),
        (∀ a ∈ l, a ∈ amps) →
        ∀ v ∈ (animSteps (pymax amps) sched l fl k2).1,
          0 ≤ v ∧ v ≤ 1 ∧ (v = 0 ∨ ∃ a ∈ amps, v = a / pymax amps) := by
      intro l
      induction l with
      | nil => intro fl k2 _ v hv; simp [animSteps] at hv
      | cons a rest2 ih =>
          intro fl k2 hsub v hv
          simp only [animSteps] at hv
          by_cases hs : (fl || sched k2) = true
          · rw [if_pos hs] at hv
            simp only [List.mem_singleton] at hv
            subst hv
            exact ⟨le_refl 0, zero_le_one, Or.inl rfl⟩
          · rw [if_neg hs, if_neg (ne_of_gt hpos)] at hv
            simp only [List.mem_cons] at hv
            rcases hv with rfl | hv
            · have ha : a ∈ amps := hsub a (List.mem_cons_self a rest2)
              exact ⟨div_nonneg (hnn a ha) (le_of_lt hpos),
                (div_le_one hpos).mpr (le_pymax amps a ha),
                Or.inr ⟨a, ha, rfl⟩⟩
            · exact ih fl (k2 + 1)
                (fun x hx => hsub x (List.mem_cons_of_mem a hx)) v hv
    intro v hv
    rw [hamps] at hv
    simp only [start_animation] at hv
    rw [← hamps] at hv
    exact key amps flag k (fun x hx => hx) v hv

/-- Witness for `C10_mouth_range`: the single emitted value of track `[1]`
is `1`, which is non-negative, at most `1`, and equal to
`amplitude / maximum` for amplitude `1`. -/
theorem C10_mouth_range_witness :
    0 ≤ (1 : ℚ) ∧ (1 : ℚ) ≤ 1 ∧
      ((1 : ℚ) = 0 ∨ ∃ a ∈ [(1 : ℚ)], (1 : ℚ) = a / pymax [(1 : ℚ)]) :=
  C10_mouth_range [1] (fun _ => false) false 0 (by norm_num)
    (by norm_num [pymax]) 1
    (by norm_num [start_animation, animSteps, pymax])

end Avatar
